import Mathlib

/-!
Shallow embedding of the safrs library (src/safrs/base.py and src/safrs/_api.py):
the SAFRSBase serialization mixin (permission checks, jsonapi attributes,
sparse fieldsets, relationship/include resolution, jsonapi encoding, patch/post
attribute sanitization) and the Api swagger/routing layer (path synthesis,
operation ids, method disabling, request-level transaction wrapper).

Python machine-level details are embedded as follows: Python dicts become
association lists built with an upsert operation (`alistSet`), uncaught Python
exceptions become an `Except PyErr` value, SQLAlchemy column/relationship
introspection data becomes plain structures, and flask request/app globals
become explicit arguments.
-/

namespace Safrs

/-- Uncaught Python exceptions that the embedded code can raise.
`validationError` is safrs.errors.ValidationError, `genericError` is
safrs.errors.GenericError carrying its status code, `keyError` and
`attrError` are Python KeyError / AttributeError. -/
inductive PyErr where
  | validationError
  | keyError
  | attrError
  | genericError (status : Nat)
deriving DecidableEq, Repr

/-- A SQLAlchemy column as seen by safrs: its db name (`column.name`), the
class attribute name that holds it, and the safrs `expose` / `permissions`
extension attributes (defaulting to exposed with "rw" in the source's
getattr calls). -/
structure ColumnDef where
  name : String
  attr : String
  expose : Bool := true
  permissions : List Char := ['r', 'w']
deriving DecidableEq, Repr

/-- Relationship direction (sqlalchemy.orm.interfaces ONETOMANY / MANYTOONE /
MANYTOMANY). -/
inductive RelDirection where
  | one_to_many
  | many_to_one
  | many_to_many
deriving DecidableEq, Repr

/-- A SQLAlchemy relationship as seen by safrs: key, direction, the `expose`
extension attribute and whether the target class has `_s_expose` set. -/
structure RelDef where
  key : String
  direction : RelDirection
  expose : Bool := true
  target_s_expose : Bool := true
deriving DecidableEq, Repr

/-- A `jsonapi_attr`-decorated class attribute: its name and whether a setter
(`fset`) is implemented. -/
structure JApiAttr where
  name : String
  hasFset : Bool := true
deriving DecidableEq, Repr

/-- The class-level data a SAFRSBase subclass carries: mapper columns and
relationships, the `exclude_attrs` / `exclude_rels` / `supports_includes` /
`allow_client_generated_ids` class attributes, the `jsonapi_attr` class
attributes, the class name (`cls.__name__`, used as the jsonapi type) and the
primary-key column names of the id type (`cls.id_type.column_names`). -/
structure ModelClass where
  name : String
  columns : List ColumnDef
  relationships : List RelDef
  exclude_attrs : List String := []
  exclude_rels : List String := []
  supports_includes : Bool := true
  jsonapi_extra : List JApiAttr := []
  allow_client_generated_ids : Bool := false
  id_column_names : List String := ["id"]
deriving DecidableEq, Repr

/-- Character-list prefix test, used to embed Python `str.startswith`
(structurally recursive so that concrete witnesses evaluate). -/
def charsIsPre : List Char → List Char → Bool
  | [], _ => true
  | _ :: _, [] => false
  | c :: cs, d :: ds => c = d && charsIsPre cs ds

/-- Python `s.startswith(pre)`. -/
def strBeginsWith (s pre : String) : Bool := charsIsPre pre.data s.data

/-- Python `s.endswith(suffix)`. -/
def strEndsWith (s suffix : String) : Bool :=
  charsIsPre suffix.data.reverse s.data.reverse

/-- Python `s.split(sep)` for a single-character separator, on char lists:
splitting the empty string yields one empty segment, as in Python. -/
def splitCharList (sep : Char) : List Char → List (List Char)
  | [] => [[]]
  | c :: cs =>
    let r := splitCharList sep cs
    if c = sep then [] :: r
    else
      match r with
      | [] => [[c]]
      | h :: t => (c :: h) :: t

/-- Python `s.split(sep)` for a single-character separator. -/
def splitChar (sep : Char) (s : String) : List String :=
  (splitCharList sep s.data).map String.mk

/-- Map a column to its model attribute name (`SAFRSBase.colname_to_attrname`):
the lookup table maps the column name to the class attribute name holding the
column, renaming an attribute called "type" to "Type". -/
def colname_to_attrname (c : ColumnDef) : String :=
  if c.attr = "type" then "Type" else c.attr

/-- Lookup in the `_col_attr_name_map` table built by `colname_to_attrname`:
columns map their db name to the (possibly renamed) attribute name; other
class attributes (here the `jsonapi_attr` ones) map their own name to itself.
A missing key is a Python KeyError, hence `Option`. -/
def colAttrMapLookup (cls : ModelClass) (col_name : String) : Option String :=
  match cls.columns.find? (fun c => c.name = col_name) with
  | some c => some (colname_to_attrname c)
  | none =>
    if cls.jsonapi_extra.any (fun a => a.name = col_name) then some col_name
    else none

/-- Class-level permission check (`SAFRSBase._s_check_perm`): underscore names
and `exclude_attrs` members are denied; a matching relationship (only when
`supports_includes` holds, the source's `continue`) is checked against
`exclude_rels`, the target's `_s_expose` and the relationship's `expose`
attribute; a matching column is checked for `expose` and the requested
permission flag; a `jsonapi_attr` is allowed; anything else raises
ValidationError. -/
def s_check_perm (cls : ModelClass) (property_name : String)
    (permission : Char := 'r') : Except PyErr Bool :=
  if strBeginsWith property_name "_" then .ok false
  else if property_name ∈ cls.exclude_attrs then .ok false
  else
    match (if cls.supports_includes then
             cls.relationships.find? (fun rel => rel.key = property_name)
           else none) with
    | some rel =>
      .ok (decide (property_name ∉ cls.exclude_rels) &&
           rel.target_s_expose && rel.expose)
    | none =>
      match cls.columns.find? (fun c => colname_to_attrname c = property_name) with
      | some column => .ok (column.expose && decide (permission ∈ column.permissions))
      | none =>
        if cls.jsonapi_extra.any (fun a => a.name = property_name) then .ok true
        else .error .validationError

/-- Python dict assignment `d[k] = v` on an association list: replace the
value in place when the key is present, append otherwise. -/
def alistSet (l : List (String × α)) (k : String) (v : α) : List (String × α) :=
  if l.any (fun p => p.1 = k) then
    l.map (fun p => if p.1 = k then (k, v) else p)
  else l ++ [(k, v)]

/-- Python dict lookup `d.get(k)` on an association list. -/
def alistLookup (l : List (String × α)) (k : String) : Option α :=
  (l.find? (fun p => p.1 = k)).map (fun p => p.2)

/-- One step of the `_s_relationships` dict comprehension: keep the
relationship under its key when `_s_check_perm` grants access. -/
def relStep (cls : ModelClass) (acc : List (String × RelDef)) (rel : RelDef) :
    Except PyErr (List (String × RelDef)) := do
  let b ← s_check_perm cls rel.key 'r'
  pure (if b then alistSet acc rel.key rel else acc)

/-- Exposed relationships dict (`SAFRSBase._s_relationships`): the mapper
relationships keyed by `rel.key`, filtered by `_s_check_perm`; a check that
raises propagates. -/
def s_relationships (cls : ModelClass) : Except PyErr (List (String × RelDef)) :=
  cls.relationships.foldlM (relStep cls) []

/-- Values stored in the class-level `_s_jsonapi_attrs` dict: a column or a
`jsonapi_attr`. -/
inductive AttrKind where
  | col (c : ColumnDef)
  | japi (a : JApiAttr)
deriving DecidableEq, Repr

/-- The per-column iteration of the class-level `_s_jsonapi_attrs` loop: a
column whose attribute name passes `_s_check_perm` is stored under its
attribute name (under "Type" when the name is "type"), skipping "id" and
exposed relationship names. -/
def classAttrsColStep (cls : ModelClass) (relKeys : List String)
    (acc : List (String × AttrKind)) (column : ColumnDef) :
    Except PyErr (List (String × AttrKind)) := do
  let attr_name := colname_to_attrname column
  let b ← s_check_perm cls attr_name 'r'
  if !b then pure acc
  else if attr_name = "type" then pure (alistSet acc "Type" (.col column))
  else if attr_name ≠ "id" ∧ attr_name ∉ relKeys then
    pure (alistSet acc attr_name (.col column))
  else pure acc

/-- Class-level `_s_jsonapi_attrs` dict: the per-column entries followed by
every `jsonapi_attr` class attribute, added unconditionally.  The
`_cached_jsonapi_attrs` caching of the source is semantically transparent and
not modelled. -/
def classJsonapiAttrs (cls : ModelClass) : Except PyErr (List (String × AttrKind)) := do
  let rels ← s_relationships cls
  let step1 ← cls.columns.foldlM (classAttrsColStep cls (rels.map Prod.fst)) []
  pure (cls.jsonapi_extra.foldl (fun acc a => alistSet acc a.name (.japi a)) step1)

/-- The value returned by `cls.id_type.get_id(self)` (safrs_types.py, built
from the primary keys); either an integer primary key or a string id. -/
inductive PkVal where
  | intVal (n : Int)
  | strVal (s : String)
deriving DecidableEq, Repr

/-- Python `str()` applied to the id value, as in `SAFRSBase.jsonapi_id`. -/
def pkToStr : PkVal → String
  | .intVal n => toString n
  | .strVal s => s

/-- The per-request data the serialization code reads from the flask request:
the sparse fieldset supplied for the serialized class (`request.fields.get`
yields `none` when the client supplied no fields[Type] parameter), the
`include` and `exclude` query args (`none` when absent) and the page limit. -/
structure Req where
  fields : Option (List String) := none
  include_arg : Option String := none
  exclude_arg : Option String := none
  page_limit : Nat := 250

/-- Relevant safrs configuration values read through `get_config`
(config.py is not under src/; only the flags the embedded code branches on
are carried). -/
structure Config where
  enable_relationships : Bool := true

/-- A SAFRSBase instance: its class, its attribute values (`getattr`, with
`none` meaning the attribute is missing so `hasattr` is false), the related
instance for each many-to-one relationship and the related instances for each
to-many relationship (represented by their jsonapi ids), the instance url
(`_s_url`, computed by flask url_for/urljoin outside this repository), the
id value produced by the id type, and the `included_list` attribute possibly
set by a recursive `Included` wrapper. -/
structure Inst where
  cls : ModelClass
  values : String → Option String
  relatedOne : String → Option String := fun _ => none
  relatedMany : String → List String := fun _ => []
  s_url : String := ""
  getIdVal : PkVal := .strVal ""
  included_list_attr : Option (List String) := none

/-- Instance jsonapi id (`SAFRSBase.jsonapi_id`): `str(self.id_type.get_id(self))`. -/
def jsonapi_id (inst : Inst) : String := pkToStr inst.getIdVal

/-- The `fields` variable of the instance-level `_s_jsonapi_attrs`: the class
attribute names by default, replaced by the request's sparse fieldset for this
class when a request context supplies one. -/
def effective_fields (cls_keys : List String) (ctx : Option Req) : List String :=
  match ctx with
  | none => cls_keys
  | some req => req.fields.getD cls_keys

/-- Fetch one attribute value in the `for attr in fields` loop of the
instance-level `_s_jsonapi_attrs`: names outside the permitted attribute list
keep the initial empty-string value; otherwise `getattr` is used directly when
`hasattr` holds, and through the column-name lookup table otherwise (where a
missing table entry is a KeyError and a missing attribute an AttributeError,
both uncaught).  The `json.loads(json.dumps(...))` round trip through the
app's json encoder is modelled as the identity. -/
def fetch_attr (inst : Inst) (janames : List String) (attr : String) :
    Except PyErr String :=
  if attr ∈ janames then
    match inst.values attr with
    | some v => .ok v
    | none =>
      match colAttrMapLookup inst.cls attr with
      | none => .error .keyError
      | some col_name =>
        match inst.values col_name with
        | some v => .ok v
        | none => .error .attrError
  else .ok ""

/-- The `ja_attr_names` list comprehension of the instance-level
`_s_jsonapi_attrs`: filter the class attribute names by `_s_check_perm`,
propagating a raised ValidationError. -/
def filterPerm (cls : ModelClass) : List String → Except PyErr (List String)
  | [] => .ok []
  | n :: ns => do
    let b ← s_check_perm cls n 'r'
    let rest ← filterPerm cls ns
    pure (if b then n :: rest else rest)

/-- The `for attr in fields` result-building loop of the instance-level
`_s_jsonapi_attrs`. -/
def todictFold (inst : Inst) (janames : List String) (fields : List String)
    (init : List (String × String)) : Except PyErr (List (String × String)) :=
  fields.foldlM (fun res attr => do
    let v ← fetch_attr inst janames attr
    pure (alistSet res attr v)) init

/-- Instance-level `_s_jsonapi_attrs` (the body of `to_dict`): compute the
effective fields, the permitted attribute names (`ja_attr_names`), and build
the result dict with one assignment per requested field. -/
def instance_jsonapi_attrs (inst : Inst) (ctx : Option Req) :
    Except PyErr (List (String × String)) := do
  let jattrs ← classJsonapiAttrs inst.cls
  let fields := effective_fields (jattrs.map Prod.fst) ctx
  let janames ← filterPerm inst.cls (jattrs.map Prod.fst)
  todictFold inst janames fields []

/-- Serialization entry point `SAFRSBase.to_dict`, which returns
`self._s_jsonapi_attrs`. -/
def to_dict (inst : Inst) (ctx : Option Req) :
    Except PyErr (List (String × String)) :=
  instance_jsonapi_attrs inst ctx

/-- Modelled from the spec: the include-all token `safrs.SAFRS.INCLUDE_ALL`
(the safrs package __init__ is not under src/; the spec and the source only
compare include segments against this token, so its concrete value is
irrelevant to the claims). -/
def INCLUDE_ALL : String := "+all"

/-- Modelled from the spec: the default `include` query argument
`safrs.SAFRS.DEFAULT_INCLUDED` (the safrs package __init__ is not under
src/); the source only splits it on commas and drops empty segments. -/
def DEFAULT_INCLUDED : String := ""

/-- Python stdlib `urllib.parse.urljoin` applied to an instance url and a
relationship name (an external collaborator; only the presence of the
resulting self link matters to the embedded claims, so it is modelled as
concatenation). -/
def urljoin (base rel : String) : String := base ++ rel

/-- The `data` member of a relationship object: `None`, a single `Included`
resource (represented by the jsonapi id it wraps), or a list of `Included`
resources. -/
inductive RelData where
  | noneData
  | single (ref : String)
  | listData (refs : List String)
deriving DecidableEq, Repr

/-- One relationship object in the `relationships` dict: the `links` object
(safrs implements only the `self` link), the `data` member, and the `meta`
entries (string-rendered). -/
structure RelEntry where
  links_self : String
  data : RelData
  meta : List (String × String) := []
deriving DecidableEq, Repr

/-- The `included_list` used by `_s_get_related`: the `included_list`
attribute when a recursive `Included` wrapper set it, otherwise the non-empty
comma-separated segments of the request's `include` argument. -/
def effectiveIncludedList (inst : Inst) (req : Req) : List String :=
  match inst.included_list_attr with
  | some l => l
  | none =>
    (splitChar ',' (req.include_arg.getD DEFAULT_INCLUDED)).filter (fun i => i ≠ "")

/-- The top-level segments of the requested include paths
(`included_rels = {i.split(".")[0] for i in included_list}`; list membership
matches the Python set membership). -/
def includedRelsOf (inst : Inst) (req : Req) : List String :=
  (effectiveIncludedList inst req).map (fun i => (splitChar '.' i).headD "")

/-- Build one relationship object of `_s_get_related` for an exposed
relationship: `data` starts as `[]` for to-many and `None` for to-one
(the `excluded_list` membership test is a `pass` no-op in the source); when
the relationship is named in the include segments (or include-all was
requested), a many-to-one relationship yields its single related instance if
truthy, and a to-many relationship yields the related list with count/limit
meta (a warning replaces them when ENABLE_RELATIONSHIPS is off; the
dynamic-query `.limit()` branch only applies to lazy='dynamic' relationships,
which are list-valued here, so the `list(rel_query)` branch is taken). -/
def mkRelEntry (inst : Inst) (req : Req) (cfg : Config)
    (included_rels included_list : List String) (rel : RelDef) : RelEntry :=
  let rel_name := rel.key
  let data0 : RelData :=
    if rel.direction = .one_to_many ∨ rel.direction = .many_to_many then
      .listData [] else .noneData
  let dm : RelData × List (String × String) :=
    if rel_name ∈ included_rels ∨ INCLUDE_ALL ∈ included_list then
      match rel.direction with
      | .many_to_one =>
        match inst.relatedOne rel_name with
        | some item => (.single item, [])
        | none => (data0, [])
      | _ =>
        let items := inst.relatedMany rel_name
        if !cfg.enable_relationships then
          (.listData [], [("warning", "ENABLE_RELATIONSHIPS set to false in config.py")])
        else if items ≠ [] then
          (.listData items,
           [("count", toString items.length), ("limit", toString req.page_limit)])
        else (.listData [], [])
    else (data0, [])
  { links_self := urljoin inst.s_url rel_name, data := dm.1, meta := dm.2 }

/-- Relationship resolution `SAFRSBase._s_get_related`: parse the include and
exclude request parameters, reject include paths whose top-level segment is
neither the include-all token nor an exposed relationship name with a
GenericError carrying status 400, and otherwise build the relationships dict
with one relationship object per exposed relationship. -/
def s_get_related (inst : Inst) (req : Req) (cfg : Config) :
    Except PyErr (List (String × RelEntry)) := do
  let included_list := effectiveIncludedList inst req
  let included_rels := includedRelsOf inst req
  let rels ← s_relationships inst.cls
  if included_rels.any
      (fun r => r ≠ INCLUDE_ALL ∧ r ∉ rels.map Prod.fst) then
    .error (.genericError 400)
  else
    pure (rels.foldl (fun acc p =>
      alistSet acc p.2.key (mkRelEntry inst req cfg included_rels included_list p.2)) [])

/-- A JSON value, for the encoded jsonapi document. -/
inductive JValue where
  | str (s : String)
  | obj (fields : List (String × JValue))
  | arr (elts : List JValue)
  | null
deriving Repr

/-- JSON rendering of a relationship `data` member (an `Included` instance is
later encoded as its resource identifier; here only its id is kept). -/
def relDataToJValue : RelData → JValue
  | .noneData => .null
  | .single ref => .str ref
  | .listData refs => .arr (refs.map .str)

/-- JSON rendering of a relationship object. -/
def relEntryToJValue (e : RelEntry) : JValue :=
  .obj ([("links", .obj [("self", .str e.links_self)]),
         ("data", relDataToJValue e.data)] ++
        (if e.meta ≠ [] then
           [("meta", .obj (e.meta.map (fun p => (p.1, .str p.2))))]
         else []))

/-- Resource-object encoding `SAFRSBase._s_jsonapi_encode`: serialize the
attributes with `to_dict`, resolve the relationships, and build the jsonapi
data dict (the `obj_url` computed from `url_for` at the top of the source
function is dead code and the `g.ja_data.add(self)` flask-global side effect
is not part of the returned value; both are omitted). -/
def s_jsonapi_encode (inst : Inst) (req : Req) (cfg : Config) :
    Except PyErr (List (String × JValue)) := do
  let self_link := inst.s_url
  let attributes ← to_dict inst (some req)
  let relationships ← s_get_related inst req cfg
  pure [("attributes", .obj (attributes.map (fun p => (p.1, .str p.2)))),
        ("id", .str (jsonapi_id inst)),
        ("links", .obj [("self", .str self_link)]),
        ("type", .str inst.cls.name),
        ("relationships", .obj (relationships.map (fun p => (p.1, relEntryToJValue p.2))))]

/-! The Api layer (src/safrs/_api.py). -/

/-- The HTTP method order used throughout `_api.py`. -/
def HTTP_METHODS : List String := ["GET", "POST", "PATCH", "DELETE", "PUT"]

/-- Python `str.upper` on the ASCII method names. -/
def strUpper (s : String) : String := String.mk (s.data.map Char.toUpper)

/-- Python `str.lower` on the ASCII method names. -/
def strLower (s : String) : String := String.mk (s.data.map Char.toLower)

/-- A flask-restful resource as `add_resource` sees it: the flask `methods`
attribute of the resource class, the `SAFRSObject.http_methods` list, whether
a handler exists for a (lowercase) method name, and whether that handler
carries a `__swagger_operation_object`. -/
structure Resource where
  methods : List String
  http_methods : List String
  hasHandler : String → Bool := fun _ => true
  hasOperation : String → Bool := fun _ => true

/-- `Api.get_resource_methods`: the http methods of the SAFRS object
(uppercased and restricted to the ordered list; the source's bare `except`
fallback for a resource without SAFRSObject never fires here since the model
always carries `http_methods`), intersected with the resource's `methods`, in
`ordered_methods` order and lowercased. -/
def get_resource_methods (resource : Resource)
    (ordered_methods : List String := HTTP_METHODS) : List String :=
  let om := (resource.http_methods.map strUpper).filter (fun m => m ∈ ordered_methods)
  (ordered_methods.filter
    (fun m => m ∈ resource.methods ∧ strUpper m ∈ om)).map strLower

/-- Python `str.strip("/")`: remove leading and trailing slashes. -/
def stripSlashes (s : String) : String :=
  String.mk (((s.data.dropWhile (fun c => c = '/')).reverse.dropWhile
    (fun c => c = '/')).reverse)

/-- The first loop of `Api.add_resource` building `path_item` (modelled at the
level of its method keys, which is what the path-level claims are about): a
method key is present when the call is not deprecated, the method is among the
`methods` kwarg, the resource has a handler for it and that handler carries a
swagger operation object. -/
def initialPathItem (res : Resource) (resource_methods : List String)
    (deprecated : Bool) : List String :=
  (get_resource_methods res).filter (fun m =>
    ¬deprecated ∧ strUpper m ∈ resource_methods ∧
    res.hasHandler m ∧ res.hasOperation m)

/-- The per-url method loop of `Api.add_resource`, restricted to its effect on
the `path_item` keys: when the url exposes an instance, the "post" key is
popped; every other branch rewrites the value stored under an existing key
(`path_item[method] = method_doc`) and leaves the key set unchanged. -/
def processUrl (grm : List String) (exposing_instance : Bool)
    (pathItem : List String) : List String :=
  grm.foldl (fun pi m =>
    if m = "post" ∧ exposing_instance then pi.filter (fun k => k ≠ "post")
    else pi) pathItem

/-- The per-url iteration of `Api.add_resource`'s swagger loop: reject urls
that do not start with "/" (ValidationError), convert the url to a swagger
path, classify it as instance or collection, run the method loop on the
shared `path_item`, and store the path.  The source stores a reference to the
shared mutable `path_item` dict; this embedding stores its value at
store-time.  The two differ only when one call passes several urls (every
call in the source passes exactly one) and then only in that the source may
later remove further keys from an already stored item, never add one. -/
def addResourceUrlStep (res : Resource) (extract : String → String)
    (suffix : String) (st : List (String × List String) × List String)
    (url : String) :
    Except PyErr (List (String × List String) × List String) :=
  if ¬strBeginsWith url "/" then .error .validationError
  else
    let swagger_url := extract url
    let exposing_instance :=
      strEndsWith (stripSlashes swagger_url) (suffix ++ "\x7d")
    let pi1 := processUrl (get_resource_methods res) exposing_instance st.2
    .ok (alistSet st.1 swagger_url pi1, pi1)

/-- The swagger-path portion of `Api.add_resource`: when the initial
`path_item` is non-empty, each url is processed in turn by
`addResourceUrlStep` (`extract` is flask_restful_swagger_2's
`extract_swagger_path`, an external passed as a function; `suffix` is the
configured OBJECT_ID_SUFFIX), and the stored paths are returned. -/
def addResourceSwaggerPaths (res : Resource) (urls : List String)
    (resource_methods : List String) (deprecated : Bool)
    (extract : String → String) (suffix : String) :
    Except PyErr (List (String × List String)) :=
  let pi0 := initialPathItem res resource_methods deprecated
  if pi0 = [] then .ok []
  else
    (urls.foldlM (addResourceUrlStep res extract suffix) (([], pi0))).map
      (fun st => st.1)

/-- A resource handler after `add_resource` ran: either the previously
installed handler or the replacement `lambda x: ({}, HTTPStatus.METHOD_NOT_ALLOWED)`. -/
inductive Handler where
  | original (name : String)
  | methodNotAllowed
deriving DecidableEq, Repr

/-- The method-disabling loop at the end of `Api.add_resource`: every
lowercased HTTP method not in `get_resource_methods` is replaced on the
resource by the 405 handler. -/
def disabledHandlers (res : Resource) : String → Handler := fun hm =>
  if hm ∈ HTTP_METHODS.map strLower ∧ hm ∉ get_resource_methods res then
    .methodNotAllowed
  else .original hm

/-- Calling the replacement handler: it returns an empty dict and
`HTTPStatus.METHOD_NOT_ALLOWED` (numeric value 405); an original handler keeps
its own behaviour. -/
def handlerResponse : Handler → Option (List (String × String) × Nat)
  | .methodNotAllowed => some ([], 405)
  | .original _ => none

/-- Python `"".join(c for c in summary if c.isalnum())` (ASCII alphanumerics). -/
def stripAlnum (s : String) : String :=
  String.mk (s.data.filter Char.isAlphanum)

/-- Decimal digits of a natural number, most significant first, computed with
explicit fuel so that the kernel can evaluate it on closed terms; the fuel is
sufficient whenever `n < fuel` (`decDigitsAux_val`). -/
def decDigitsAux : Nat → Nat → List Char
  | 0, _ => []
  | fuel + 1, n =>
    if n < 10 then [Nat.digitChar n]
    else decDigitsAux fuel (n / 10) ++ [Nat.digitChar (n % 10)]

/-- Decimal digits of a natural number, most significant first, as rendered by
Python's `"{}".format` / `str`. -/
def decDigits (n : Nat) : List Char := decDigitsAux (n + 1) n

/-- Decimal string rendering of a natural number. -/
def decRepr (n : Nat) : String := String.mk (decDigits n)

/-- The `Api._operation_ids` per-summary counter table (a Python dict,
initially empty). -/
def OpState := String → Option Nat

/-- `Api.get_operation_id`: strip the summary to its alphanumeric characters,
initialize its counter to 0 on first use or increment it, and return the
stripped summary, an underscore and the counter, together with the updated
counter table. -/
def get_operation_id (st : OpState) (summary : String) : String × OpState :=
  let s := stripAlnum summary
  match st s with
  | none =>
    (s ++ "_" ++ decRepr 0, fun k => if k = s then some 0 else st k)
  | some n =>
    (s ++ "_" ++ decRepr (n + 1), fun k => if k = s then some (n + 1) else st k)

/-- The operation ids returned by a sequence of `get_operation_id` calls
starting from a given counter table. -/
def opIdTrace (st : OpState) : List String → List String
  | [] => []
  | x :: xs =>
    (get_operation_id st x).1 :: opIdTrace (get_operation_id st x).2 xs

/-- The counter value `get_operation_id` uses for a stripped summary: 0 on
first use, the stored counter plus one afterwards. -/
def nextCount (st : OpState) (s : String) : Nat :=
  match st s with
  | none => 0
  | some n => n + 1

/-- An exception escaping a wrapped REST handler, as `http_method_decorator`
distinguishes them: a safrs error (ValidationError / GenericError /
NotFoundError, which always carry `status_code` and `message`), the werkzeug
NotFound exception, or any other exception, for which only the presence of a
`status_code` attribute and of a `message` attribute matter. -/
inductive HandlerExc where
  | safrsError (status_code : Nat) (message : String)
  | werkzeugNotFound
  | otherExc (status_code : Option Nat) (hasMessage : Bool) (message : String)
deriving DecidableEq, Repr

/-- The outcome of calling the wrapped handler: a normal return or an
escaping exception. -/
inductive HandlerOutcome (α : Type) where
  | ok (a : α)
  | exc (e : HandlerExc)

/-- An operation `http_method_decorator` performs on the database session. -/
inductive SessionOp where
  | commit
  | rollback
deriving DecidableEq, Repr

/-- What the request produces after the wrapper ran: the handler's result
(session committed), a JSON error abort with a status code and detail
(session rolled back), or an exception escaping the wrapper itself. -/
inductive WrapperResult (α : Type) where
  | success (a : α)
  | aborted (status : Nat) (detail : String)
  | propagated (e : PyErr)

/-- `http_method_decorator`'s `method_wrapper`: commit and return on a normal
handler return; on a safrs error take its status code and message; on a
werkzeug NotFound use 404 / "Not Found"; on any other exception read
`status_code` with default 500, then log `exc.message` — an attribute most
Python 3 exceptions do not have, so when it is missing an AttributeError
escapes the wrapper before any rollback or abort; otherwise pick the message
(censored unless debug logging), roll back the session and abort with a JSON
error. Returns the wrapper outcome together with the session operations
performed. -/
def method_wrapper (outcome : HandlerOutcome α) (logDebugEnabled : Bool) :
    WrapperResult α × List SessionOp :=
  match outcome with
  | .ok a => (.success a, [.commit])
  | .exc (.safrsError sc msg) => (.aborted sc msg, [.rollback])
  | .exc .werkzeugNotFound => (.aborted 404 "Not Found", [.rollback])
  | .exc (.otherExc sc hasMessage msg) =>
    let status := sc.getD 500
    if ¬hasMessage then (.propagated .attrError, [])
    else
      let message := if ¬logDebugEnabled then "Logging Disabled" else msg
      (.aborted status message, [.rollback])

/-- Python `setattr` on a SAFRSBase instance (`SAFRSBase.__setattr__`): a
`jsonapi_attr` whose setter is not implemented makes the assignment a no-op;
otherwise the attribute value is stored. -/
def setattrModel (inst : Inst) (n v : String) : Inst :=
  match inst.cls.jsonapi_extra.find? (fun a => a.name = n) with
  | some a =>
    if !a.hasFset then inst
    else { inst with values := fun k => if k = n then some v else inst.values k }
  | none =>
    { inst with values := fun k => if k = n then some v else inst.values k }

/-- `SAFRSBase._s_parse_attr_value`: outside a request context, or for "id",
the value is returned unchanged; a `jsonapi_attr` value is returned unchanged;
a column value is parsed by `parse_attr` (attr_parse.py is not under src/ and
is passed as a function); a name missing from `_s_jsonapi_attrs` makes the
`isinstance(attr, Column)` test fail and raises ValidationError. -/
def s_parse_attr_value (parse : ColumnDef → String → String)
    (reqCtx : Bool) (jattrs : List (String × AttrKind)) (n v : String) :
    Except PyErr String :=
  if ¬reqCtx then .ok v
  else if n = "id" then .ok v
  else
    match alistLookup jattrs n with
    | some (.japi _) => .ok v
    | some (.col c) => .ok (parse c v)
    | none => .error .validationError

/-- One iteration of the `_s_patch` loop: skip names not declared in the
class `_s_jsonapi_attrs`, skip names without write permission, parse the
value and set it on the instance. -/
def patchStep (parse : ColumnDef → String → String) (reqCtx : Bool)
    (jattrs : List (String × AttrKind)) (i : Inst) (p : String × String) :
    Except PyErr Inst := do
  if p.1 ∉ jattrs.map Prod.fst then pure i
  else do
    let w ← s_check_perm i.cls p.1 'w'
    if !w then pure i
    else do
      let v ← s_parse_attr_value parse reqCtx jattrs p.1 p.2
      pure (setattrModel i p.1 v)

/-- `SAFRSBase._s_patch`: fold the patch step over the supplied attributes. -/
def s_patch (parse : ColumnDef → String → String) (reqCtx : Bool)
    (inst : Inst) (attributes : List (String × String)) : Except PyErr Inst := do
  let jattrs ← classJsonapiAttrs inst.cls
  attributes.foldlM (patchStep parse reqCtx jattrs) inst

/-- The attribute sanitization performed by `SAFRSBase._s_post` before
instantiating: drop attributes not declared in the class `_s_jsonapi_attrs`;
then either store the supplied id under "id" (when client-generated ids are
allowed, the id argument may be Python None, hence `Option`) or drop every
primary-key column name of the id type. -/
def s_post_attributes (cls : ModelClass) (id : Option String)
    (attributes : List (String × Option String)) :
    Except PyErr (List (String × Option String)) := do
  let jattrs ← classJsonapiAttrs cls
  let attrs1 := attributes.filter (fun p => p.1 ∈ jattrs.map Prod.fst)
  if cls.allow_client_generated_ids then
    pure (alistSet attrs1 "id" id)
  else
    pure (attrs1.filter (fun p => p.1 ∉ cls.id_column_names))

/-- Example model class for concrete evaluations: a User with an excluded
`secret` column, a to-many `books` relationship and a to-one `employer`
relationship. -/
def userCls : ModelClass := {
  name := "User"
  columns := [{ name := "id", attr := "id" }, { name := "name", attr := "name" },
              { name := "email", attr := "email" },
              { name := "secret", attr := "secret" }]
  relationships := [{ key := "books", direction := .one_to_many },
                    { key := "employer", direction := .many_to_one }]
  exclude_attrs := ["secret"] }

/-- Example instance of `userCls`. -/
def userInst : Inst := {
  cls := userCls
  values := fun n =>
    if n = "id" then some "1"
    else if n = "name" then some "Alice"
    else if n = "email" then some "alice@example.com"
    else if n = "secret" then some "hunter2"
    else none
  relatedOne := fun n => if n = "employer" then some "2" else none
  relatedMany := fun n => if n = "books" then ["7", "8"] else []
  s_url := "http://server/Users/1"
  getIdVal := .intVal 1 }

/-- The class-level `_s_jsonapi_attrs` dict of `userCls`, spelled out for the
concrete witnesses. -/
def userJattrs : List (String × AttrKind) :=
  [("name", .col { name := "name", attr := "name" }),
   ("email", .col { name := "email", attr := "email" })]

/-- Example flask-restful resource for concrete evaluations: flask exposes
GET and POST, the SAFRS object only allows GET. -/
def demoResource : Resource :=
  { methods := ["GET", "POST"], http_methods := ["GET"] }

/-- The `_s_relationships` dict of `userCls`, spelled out for the concrete
witnesses. -/
def userRels : List (String × RelDef) :=
  [("books", { key := "books", direction := .one_to_many }),
   ("employer", { key := "employer", direction := .many_to_one })]

/-! Helper lemmas about the dict embedding. -/

theorem alistSet_map_fst (l : List (String × α)) (k : String) (v : α) :
    (alistSet l k v).map Prod.fst =
      if l.any (fun p => p.1 = k) then l.map Prod.fst
      else l.map Prod.fst ++ [k] := by
  unfold alistSet
  split
  · simp only [List.map_map]
    refine List.map_congr_left (fun p _ => ?_)
    by_cases h : p.1 = k <;> simp [h]
  · simp

theorem mem_keys_alistSet {l : List (String × α)} {k k' : String} {v : α} :
    k' ∈ (alistSet l k v).map Prod.fst ↔ k' ∈ l.map Prod.fst ∨ k' = k := by
  rw [alistSet_map_fst]
  split
  · rename_i hany
    rw [List.any_eq_true] at hany
    obtain ⟨p, hp, he⟩ := hany
    simp only [decide_eq_true_eq] at he
    constructor
    · exact Or.inl
    · rintro (h | rfl)
      · exact h
      · exact he ▸ List.mem_map_of_mem Prod.fst hp
  · simp

theorem mem_alistSet {l : List (String × α)} {k : String} {v : α}
    {q : String × α} (hq : q ∈ alistSet l k v) :
    q = (k, v) ∨ (q ∈ l ∧ q.1 ≠ k) := by
  unfold alistSet at hq
  split at hq
  · rw [List.mem_map] at hq
    obtain ⟨p, hp, he⟩ := hq
    by_cases h : p.1 = k
    · simp only [h, if_pos rfl] at he
      exact Or.inl he.symm
    · simp only [if_neg h] at he
      exact Or.inr ⟨he ▸ hp, he ▸ h⟩
  · rename_i hany
    rcases List.mem_append.mp hq with h | h
    · refine Or.inr ⟨h, ?_⟩
      intro hk
      rw [Bool.not_eq_true, List.any_eq_false] at hany
      have := hany q h
      simp only [decide_eq_true_eq] at this
      exact this hk
    · exact Or.inl (by simpa using h)

theorem alistLookup_alistSet_self (l : List (String × α)) (k : String) (v : α) :
    alistLookup (alistSet l k v) k = some v := by
  induction l with
  | nil => simp [alistSet, alistLookup]
  | cons p l ih =>
    by_cases hp : p.1 = k
    · simp [alistSet, alistLookup, hp]
    · have hset : alistSet (p :: l) k v = p :: alistSet l k v := by
        unfold alistSet
        by_cases hany : l.any (fun q => q.1 = k)
        · simp [hany, hp, List.any_cons]
        · simp [hany, hp, List.any_cons]
      rw [hset]
      simpa [alistLookup, List.find?_cons, hp] using ih

theorem keys_nodup_alistSet {l : List (String × α)} {k : String} {v : α}
    (h : (l.map Prod.fst).Nodup) : ((alistSet l k v).map Prod.fst).Nodup := by
  rw [alistSet_map_fst]
  split
  · exact h
  · rename_i hany
    rw [Bool.not_eq_true, List.any_eq_false] at hany
    refine List.Nodup.append h (List.nodup_singleton k) ?_
    intro a ha hb
    rw [List.mem_singleton] at hb
    subst hb
    rw [List.mem_map] at ha
    obtain ⟨p, hp, he⟩ := ha
    have := hany p hp
    simp only [decide_eq_true_eq] at this
    exact this he

theorem alistSet_fresh_append {l : List (String × α)} {k : String} {v : α}
    (h : k ∉ l.map Prod.fst) : alistSet l k v = l ++ [(k, v)] := by
  unfold alistSet
  rw [if_neg]
  rw [Bool.not_eq_true, List.any_eq_false]
  intro p hp
  simp only [decide_eq_true_eq]
  intro he
  exact h (he ▸ List.mem_map_of_mem Prod.fst hp)

theorem todictFold_nil (inst : Inst) (ja : List String)
    (init : List (String × String)) : todictFold inst ja [] init = .ok init := rfl

theorem todictFold_cons_ok {inst : Inst} {ja : List String} {a : String}
    {v : String} (fs : List String) (init : List (String × String))
    (h : fetch_attr inst ja a = .ok v) :
    todictFold inst ja (a :: fs) init = todictFold inst ja fs (alistSet init a v) := by
  simp only [todictFold, List.foldlM_cons, h]
  rfl

theorem todictFold_cons_err {inst : Inst} {ja : List String} {a : String}
    {e : PyErr} (fs : List String) (init : List (String × String))
    (h : fetch_attr inst ja a = .error e) :
    todictFold inst ja (a :: fs) init = .error e := by
  simp only [todictFold, List.foldlM_cons, h]
  rfl

/-- Keys of the `to_dict` result dict: exactly the requested fields together
with whatever was already in the accumulator. -/
theorem todictFold_keys {inst : Inst} {ja : List String} :
    ∀ (fields : List String) (init r : List (String × String)),
    todictFold inst ja fields init = .ok r →
    ∀ k, k ∈ r.map Prod.fst ↔ (k ∈ fields ∨ k ∈ init.map Prod.fst) := by
  intro fields
  induction fields with
  | nil =>
    intro init r h k
    rw [todictFold_nil] at h
    cases h
    simp
  | cons a fs ih =>
    intro init r h k
    cases hf : fetch_attr inst ja a with
    | error e => rw [todictFold_cons_err fs init hf] at h; cases h
    | ok v =>
      rw [todictFold_cons_ok fs init hf] at h
      have := ih (alistSet init a v) r h k
      rw [this, mem_keys_alistSet]
      constructor
      · rintro (h1 | h1 | rfl)
        · exact Or.inl (List.mem_cons_of_mem a h1)
        · exact Or.inr h1
        · exact Or.inl (List.mem_cons_self _ _)
      · rintro (h1 | h1)
        · rcases List.mem_cons.mp h1 with rfl | h1
          · exact Or.inr (Or.inr rfl)
          · exact Or.inl h1
        · exact Or.inr (Or.inl h1)

/-- When every fetch of key `p` yields the empty-string placeholder, the value
stored under `p` in the result dict is the empty string. -/
theorem todictFold_const_val {inst : Inst} {ja : List String} {p : String}
    (hp : ∀ v, fetch_attr inst ja p = .ok v → v = "") :
    ∀ (fields : List String) (init r : List (String × String)),
    todictFold inst ja fields init = .ok r →
    (∀ v, (p, v) ∈ init → v = "") → ∀ v, (p, v) ∈ r → v = "" := by
  intro fields
  induction fields with
  | nil =>
    intro init r h hinit v hv
    rw [todictFold_nil] at h
    cases h
    exact hinit v hv
  | cons a fs ih =>
    intro init r h hinit v hv
    cases hf : fetch_attr inst ja a with
    | error e => rw [todictFold_cons_err fs init hf] at h; cases h
    | ok w =>
      rw [todictFold_cons_ok fs init hf] at h
      refine ih (alistSet init a w) r h ?_ v hv
      intro u hu
      rcases mem_alistSet hu with he | ⟨hmem, _⟩
      · have hpa : p = a := congrArg Prod.fst he
        have huw : u = w := congrArg Prod.snd he
        subst hpa
        rw [huw]
        exact hp w hf
      · exact hinit u hmem

theorem filterPerm_cons_err {cls : ModelClass} {a : String} {e : PyErr}
    (l : List String) (h : s_check_perm cls a 'r' = .error e) :
    filterPerm cls (a :: l) = .error e := by
  simp only [filterPerm, h]
  rfl

theorem filterPerm_cons_ok {cls : ModelClass} {a : String} {b : Bool}
    (l : List String) (h : s_check_perm cls a 'r' = .ok b) :
    filterPerm cls (a :: l) =
      (filterPerm cls l).map (fun rest => if b then a :: rest else rest) := by
  simp only [filterPerm, h]
  cases filterPerm cls l <;> rfl

/-- Membership in the `ja_attr_names` list implies the permission check
succeeded. -/
theorem mem_filterPerm {cls : ModelClass} {n : String} :
    ∀ {l js : List String}, filterPerm cls l = .ok js → n ∈ js →
    s_check_perm cls n 'r' = .ok true := by
  intro l
  induction l with
  | nil =>
    intro js h hn
    cases h
    cases hn
  | cons a l ih =>
    intro js h hn
    cases hb : s_check_perm cls a 'r' with
    | error e =>
      rw [filterPerm_cons_err l hb] at h
      cases h
    | ok b =>
      rw [filterPerm_cons_ok l hb] at h
      cases hrest : filterPerm cls l with
      | error e =>
        rw [hrest] at h
        cases h
      | ok rest =>
        rw [hrest] at h
        simp only [Except.map] at h
        cases h
        cases b with
        | true =>
          rcases List.mem_cons.mp (by simpa using hn) with rfl | hn2
          · exact hb
          · exact ih hrest hn2
        | false =>
          exact ih hrest (by simpa using hn)

theorem except_bind_ok (a : α) (f : α → Except ε β) :
    (Except.ok a >>= f : Except ε β) = f a := rfl

theorem except_bind_err (e : ε) (f : α → Except ε β) :
    ((Except.error e : Except ε α) >>= f) = .error e := rfl

theorem colname_to_attrname_ne_type (c : ColumnDef) :
    colname_to_attrname c ≠ "type" := by
  unfold colname_to_attrname
  split
  · decide
  · assumption

theorem classAttrsColStep_err {cls : ModelClass} {relKeys : List String}
    {acc : List (String × AttrKind)} {column : ColumnDef} {e : PyErr}
    (hb : s_check_perm cls (colname_to_attrname column) 'r' = .error e) :
    classAttrsColStep cls relKeys acc column = .error e := by
  simp only [classAttrsColStep, hb, except_bind_err]

theorem classAttrsColStep_false {cls : ModelClass} {relKeys : List String}
    {acc : List (String × AttrKind)} {column : ColumnDef}
    (hb : s_check_perm cls (colname_to_attrname column) 'r' = .ok false) :
    classAttrsColStep cls relKeys acc column = .ok acc := by
  simp only [classAttrsColStep, hb, except_bind_ok]
  rfl

theorem classAttrsColStep_true {cls : ModelClass} {relKeys : List String}
    {acc : List (String × AttrKind)} {column : ColumnDef}
    (hb : s_check_perm cls (colname_to_attrname column) 'r' = .ok true) :
    classAttrsColStep cls relKeys acc column =
      .ok (if colname_to_attrname column ≠ "id" ∧ colname_to_attrname column ∉ relKeys
           then alistSet acc (colname_to_attrname column) (.col column)
           else acc) := by
  simp only [classAttrsColStep, hb, except_bind_ok, Bool.not_true]
  rw [if_neg (by simp : ¬(false = true)),
      if_neg (colname_to_attrname_ne_type column)]
  split <;> rfl

/-- Every key the per-column loop adds passed the permission check. -/
theorem classAttrs_colfold_keys {cls : ModelClass} {relKeys : List String} :
    ∀ (cols : List ColumnDef) (acc r : List (String × AttrKind)),
    cols.foldlM (classAttrsColStep cls relKeys) acc = .ok r →
    ∀ k ∈ r.map Prod.fst,
      k ∈ acc.map Prod.fst ∨ s_check_perm cls k 'r' = .ok true := by
  intro cols
  induction cols with
  | nil =>
    intro acc r h k hk
    cases h
    exact Or.inl hk
  | cons c cols ih =>
    intro acc r h k hk
    rw [List.foldlM_cons] at h
    cases hb : s_check_perm cls (colname_to_attrname c) 'r' with
    | error e =>
      rw [classAttrsColStep_err hb, except_bind_err] at h
      cases h
    | ok b =>
      cases b with
      | false =>
        rw [classAttrsColStep_false hb, except_bind_ok] at h
        exact ih acc r h k hk
      | true =>
        rw [classAttrsColStep_true hb, except_bind_ok] at h
        rcases ih _ r h k hk with h1 | h1
        · split at h1
          · rcases mem_keys_alistSet.mp h1 with h2 | rfl
            · exact Or.inl h2
            · exact Or.inr hb
          · exact Or.inl h1
        · exact Or.inr h1

/-- Every key the `jsonapi_attr` loop adds is a `jsonapi_attr` name. -/
theorem extrasFold_keys :
    ∀ (extras : List JApiAttr) (acc : List (String × AttrKind)) (k : String),
    k ∈ ((extras.foldl (fun acc a => alistSet acc a.name (.japi a)) acc).map Prod.fst) →
    k ∈ acc.map Prod.fst ∨ k ∈ extras.map JApiAttr.name := by
  intro extras
  induction extras with
  | nil =>
    intro acc k hk
    exact Or.inl hk
  | cons a extras ih =>
    intro acc k hk
    rw [List.foldl_cons] at hk
    rcases ih _ k hk with h1 | h1
    · rcases mem_keys_alistSet.mp h1 with h2 | rfl
      · exact Or.inl h2
      · exact Or.inr (by simp)
    · refine Or.inr ?_
      rw [List.map_cons]
      exact List.mem_cons_of_mem _ h1

/-- Every key of the class-level `_s_jsonapi_attrs` dict is either a
`jsonapi_attr` name or an attribute name whose permission check succeeded. -/
theorem classJsonapiAttrs_keys {cls : ModelClass} {attrs : List (String × AttrKind)}
    (h : classJsonapiAttrs cls = .ok attrs) :
    ∀ k ∈ attrs.map Prod.fst,
      k ∈ cls.jsonapi_extra.map JApiAttr.name ∨ s_check_perm cls k 'r' = .ok true := by
  intro k hk
  unfold classJsonapiAttrs at h
  cases hr : s_relationships cls with
  | error e =>
    rw [hr, except_bind_err] at h
    cases h
  | ok rels =>
    rw [hr, except_bind_ok] at h
    cases hc : cls.columns.foldlM (classAttrsColStep cls (rels.map Prod.fst)) [] with
    | error e =>
      rw [hc, except_bind_err] at h
      cases h
    | ok step1 =>
      rw [hc, except_bind_ok] at h
      cases h
      rcases extrasFold_keys cls.jsonapi_extra step1 k hk with h1 | h1
      · rcases classAttrs_colfold_keys cls.columns [] step1 hc k h1 with h2 | h2
        · simp at h2
        · exact Or.inr h2
      · exact Or.inl h1

/-- Inversion of a successful `to_dict` run into its three stages. -/
theorem to_dict_inv {inst : Inst} {ctx : Option Req}
    {r : List (String × String)} (h : to_dict inst ctx = .ok r) :
    ∃ jattrs janames,
      classJsonapiAttrs inst.cls = .ok jattrs ∧
      filterPerm inst.cls (jattrs.map Prod.fst) = .ok janames ∧
      todictFold inst janames (effective_fields (jattrs.map Prod.fst) ctx) [] = .ok r := by
  unfold to_dict instance_jsonapi_attrs at h
  cases hj : classJsonapiAttrs inst.cls with
  | error e =>
    rw [hj, except_bind_err] at h
    cases h
  | ok jattrs =>
    rw [hj, except_bind_ok] at h
    cases hf : filterPerm inst.cls (jattrs.map Prod.fst) with
    | error e =>
      rw [hf, except_bind_err] at h
      cases h
    | ok janames =>
      rw [hf, except_bind_ok] at h
      exact ⟨jattrs, janames, rfl, hf, h⟩

/-- C1: sparse fieldsets are honoured on serialization.  When the request
supplies a sparse fieldset for the instance's class, the attribute dict
produced by `to_dict` / the instance-level `_s_jsonapi_attrs` contains no key
outside the requested list; when no fieldset is supplied, its keys are exactly
the class's exposed jsonapi attribute names (the keys of the class-level
`_s_jsonapi_attrs`). -/
theorem C1_sparse_fieldsets (inst : Inst) (req : Req) (r : List (String × String)) :
    (∀ fs, req.fields = some fs → to_dict inst (some req) = .ok r →
       ∀ k ∈ r.map Prod.fst, k ∈ fs)
    ∧ (∀ jattrs, req.fields = none → classJsonapiAttrs inst.cls = .ok jattrs →
       to_dict inst (some req) = .ok r →
       ∀ k, k ∈ r.map Prod.fst ↔ k ∈ jattrs.map Prod.fst) := by
  constructor
  · intro fs hfs h k hk
    obtain ⟨jattrs, janames, hj, hf, hfold⟩ := to_dict_inv h
    have he : effective_fields (jattrs.map Prod.fst) (some req) = fs := by
      simp [effective_fields, hfs]
    rw [he] at hfold
    rcases (todictFold_keys fs [] r hfold k).mp hk with h1 | h1
    · exact h1
    · simp at h1
  · intro jattrs hfs hj h k
    obtain ⟨jattrs', janames, hj', hf, hfold⟩ := to_dict_inv h
    rw [hj] at hj'
    cases hj'
    have he : effective_fields (jattrs.map Prod.fst) (some req) = jattrs.map Prod.fst := by
      simp [effective_fields, hfs]
    rw [he] at hfold
    have := todictFold_keys _ [] r hfold k
    simpa using this

/-- C1 witness: a concrete class, instance and request with a sparse fieldset,
evaluated and fed through the theorem. -/
theorem C1_sparse_fieldsets_witness :
    ({ fields := some ["name"] } : Req).fields = some ["name"] ∧
    to_dict userInst (some { fields := some ["name"] }) = .ok [("name", "Alice")] ∧
    (∀ k ∈ [("name", "Alice")].map Prod.fst, k ∈ ["name"]) :=
  ⟨rfl, rfl,
   (C1_sparse_fieldsets userInst { fields := some ["name"] } [("name", "Alice")]).1
     ["name"] rfl rfl⟩

/-- C2 counterexample: the claim says an attribute with `_s_check_perm` False
(here the excluded column "secret") never appears as a key in the `to_dict`
result regardless of the requested fields; but when the client's sparse
fieldset names it explicitly, the key does appear (with the empty-string
placeholder value). -/
theorem C2_counterexample :
    s_check_perm userCls "secret" 'r' = .ok false ∧
    to_dict userInst (some { fields := some ["secret"] }) = .ok [("secret", "")] ∧
    "secret" ∈ ([(("secret" : String), ("" : String))].map Prod.fst) :=
  ⟨rfl, rfl, by simp⟩

/-- C2 (amended): an underscore-prefixed or excluded attribute has
`_s_check_perm` returning False; its value is never exposed by `to_dict` (any
entry stored under it holds the empty-string placeholder); and when no sparse
fieldset is supplied its key does not appear at all, provided the name is not
a `jsonapi_attr` class attribute (those are added to the class attrs dict
without a permission check). -/
theorem C2_permission_gated (cls : ModelClass) (p : String)
    (hp : strBeginsWith p "_" = true ∨ p ∈ cls.exclude_attrs) :
    (∀ perm, s_check_perm cls p perm = .ok false)
    ∧ (∀ (inst : Inst) (ctx : Option Req) (r : List (String × String)) (v : String),
        inst.cls = cls → to_dict inst ctx = .ok r → (p, v) ∈ r → v = "")
    ∧ (∀ (inst : Inst) (r : List (String × String)),
        inst.cls = cls → p ∉ cls.jsonapi_extra.map JApiAttr.name →
        to_dict inst none = .ok r → p ∉ r.map Prod.fst) := by
  have hperm : ∀ perm, s_check_perm cls p perm = .ok false := by
    intro perm
    unfold s_check_perm
    rcases hp with h | h
    · rw [if_pos h]
    · by_cases hu : strBeginsWith p "_" = true
      · rw [if_pos hu]
      · rw [if_neg hu, if_pos h]
  refine ⟨hperm, ?_, ?_⟩
  · intro inst ctx r v hcls h hv
    obtain ⟨jattrs, janames, hj, hf, hfold⟩ := to_dict_inv h
    have hnotja : p ∉ janames := by
      intro hmem
      have := mem_filterPerm hf hmem
      rw [hcls, hperm 'r'] at this
      cases this
    have hfetch : ∀ w, fetch_attr inst janames p = .ok w → w = "" := by
      intro w hw
      unfold fetch_attr at hw
      rw [if_neg hnotja] at hw
      cases hw
      rfl
    exact todictFold_const_val hfetch _ [] r hfold (by simp) v hv
  · intro inst r hcls hnotextra h hmem
    obtain ⟨jattrs, janames, hj, hf, hfold⟩ := to_dict_inv h
    have he : effective_fields (jattrs.map Prod.fst) none = jattrs.map Prod.fst := rfl
    rw [he] at hfold
    rcases (todictFold_keys _ [] r hfold p).mp hmem with h1 | h1
    · rcases classJsonapiAttrs_keys hj p h1 with h2 | h2
      · exact hnotextra (hcls ▸ h2)
      · rw [hcls, hperm 'r'] at h2
        cases h2
    · simp at h1

/-- C2 witness: the amended theorem applied to the concrete excluded column
"secret" of the example class, discharging its hypotheses. -/
theorem C2_permission_gated_witness :
    (strBeginsWith "secret" "_" = true ∨ "secret" ∈ userCls.exclude_attrs) ∧
    (∀ perm, s_check_perm userCls "secret" perm = .ok false) :=
  ⟨Or.inr (by decide),
   (C2_permission_gated userCls "secret" (Or.inr (by decide))).1⟩

theorem setattrModel_cls (i : Inst) (n v : String) :
    (setattrModel i n v).cls = i.cls := by
  unfold setattrModel
  cases i.cls.jsonapi_extra.find? (fun a => a.name = n) with
  | none => rfl
  | some a =>
    cases ha : a.hasFset with
    | true => simp [ha]
    | false => simp [ha]

theorem setattrModel_values_ne (i : Inst) {n : String} (v : String) {k : String}
    (h : k ≠ n) : (setattrModel i n v).values k = i.values k := by
  unfold setattrModel
  cases i.cls.jsonapi_extra.find? (fun a => a.name = n) with
  | none => simp [if_neg h]
  | some a =>
    cases ha : a.hasFset with
    | true => simp [ha, if_neg h]
    | false => simp [ha]

theorem patchStep_skip {parse : ColumnDef → String → String} {reqCtx : Bool}
    {jattrs : List (String × AttrKind)} {i : Inst} {p : String × String}
    (h : p.1 ∉ jattrs.map Prod.fst) :
    patchStep parse reqCtx jattrs i p = .ok i := by
  simp only [patchStep, if_pos h]
  rfl

theorem patchStep_perm_err {parse : ColumnDef → String → String} {reqCtx : Bool}
    {jattrs : List (String × AttrKind)} {i : Inst} {p : String × String} {e : PyErr}
    (hm : p.1 ∈ jattrs.map Prod.fst) (hw : s_check_perm i.cls p.1 'w' = .error e) :
    patchStep parse reqCtx jattrs i p = .error e := by
  simp only [patchStep, if_neg (not_not_intro hm), hw, except_bind_err]

theorem patchStep_perm_false {parse : ColumnDef → String → String} {reqCtx : Bool}
    {jattrs : List (String × AttrKind)} {i : Inst} {p : String × String}
    (hm : p.1 ∈ jattrs.map Prod.fst) (hw : s_check_perm i.cls p.1 'w' = .ok false) :
    patchStep parse reqCtx jattrs i p = .ok i := by
  simp only [patchStep, if_neg (not_not_intro hm), hw, except_bind_ok]
  rfl

theorem patchStep_parse_err {parse : ColumnDef → String → String} {reqCtx : Bool}
    {jattrs : List (String × AttrKind)} {i : Inst} {p : String × String} {e : PyErr}
    (hm : p.1 ∈ jattrs.map Prod.fst) (hw : s_check_perm i.cls p.1 'w' = .ok true)
    (hv : s_parse_attr_value parse reqCtx jattrs p.1 p.2 = .error e) :
    patchStep parse reqCtx jattrs i p = .error e := by
  simp only [patchStep, if_neg (not_not_intro hm), hw, except_bind_ok, Bool.not_true]
  rw [if_neg (by simp : ¬(false = true))]
  simp only [hv, except_bind_err]

theorem patchStep_set {parse : ColumnDef → String → String} {reqCtx : Bool}
    {jattrs : List (String × AttrKind)} {i : Inst} {p : String × String} {v : String}
    (hm : p.1 ∈ jattrs.map Prod.fst) (hw : s_check_perm i.cls p.1 'w' = .ok true)
    (hv : s_parse_attr_value parse reqCtx jattrs p.1 p.2 = .ok v) :
    patchStep parse reqCtx jattrs i p = .ok (setattrModel i p.1 v) := by
  simp only [patchStep, if_neg (not_not_intro hm), hw, except_bind_ok, Bool.not_true]
  rw [if_neg (by simp : ¬(false = true))]
  simp only [hv, except_bind_ok]
  rfl

/-- Frame property of the `_s_patch` loop: the class is unchanged and only
declared writable attributes change. -/
theorem patchFold_frame (parse : ColumnDef → String → String) (reqCtx : Bool)
    (jattrs : List (String × AttrKind)) :
    ∀ (attributes : List (String × String)) (i inst' : Inst),
    attributes.foldlM (patchStep parse reqCtx jattrs) i = .ok inst' →
    inst'.cls = i.cls ∧
    ∀ n, inst'.values n ≠ i.values n →
      n ∈ jattrs.map Prod.fst ∧ s_check_perm i.cls n 'w' = .ok true := by
  intro attributes
  induction attributes with
  | nil =>
    intro i inst' h
    cases h
    exact ⟨rfl, fun n hn => absurd rfl hn⟩
  | cons p ps ih =>
    intro i inst' h
    rw [List.foldlM_cons] at h
    by_cases hm : p.1 ∈ jattrs.map Prod.fst
    · cases hw : s_check_perm i.cls p.1 'w' with
      | error e =>
        rw [patchStep_perm_err hm hw, except_bind_err] at h
        cases h
      | ok b =>
        cases b with
        | false =>
          rw [patchStep_perm_false hm hw, except_bind_ok] at h
          exact ih i inst' h
        | true =>
          cases hv : s_parse_attr_value parse reqCtx jattrs p.1 p.2 with
          | error e =>
            rw [patchStep_parse_err hm hw hv, except_bind_err] at h
            cases h
          | ok v =>
            rw [patchStep_set hm hw hv, except_bind_ok] at h
            obtain ⟨hcls, hframe⟩ := ih _ inst' h
            rw [setattrModel_cls] at hcls
            refine ⟨hcls, fun n hn => ?_⟩
            by_cases hnp : n = p.1
            · exact ⟨hnp ▸ hm, hnp ▸ hw⟩
            · have hkeep := setattrModel_values_ne i v hnp
              have : inst'.values n ≠ (setattrModel i p.1 v).values n := by
                rw [hkeep]
                exact hn
              have := hframe n this
              rwa [setattrModel_cls] at this
    · rw [patchStep_skip hm, except_bind_ok] at h
      exact ih i inst' h

/-- Attributes all outside the declared dict are silently skipped: the fold
returns the instance unchanged and raises nothing. -/
theorem patchFold_skip (parse : ColumnDef → String → String) (reqCtx : Bool)
    (jattrs : List (String × AttrKind)) :
    ∀ (attributes : List (String × String)) (i : Inst),
    (∀ p ∈ attributes, p.1 ∉ jattrs.map Prod.fst) →
    attributes.foldlM (patchStep parse reqCtx jattrs) i = .ok i := by
  intro attributes
  induction attributes with
  | nil => intro i _; rfl
  | cons p ps ih =>
    intro i hall
    rw [List.foldlM_cons, patchStep_skip (hall p (List.mem_cons_self _ _)),
        except_bind_ok]
    exact ih i (fun q hq => hall q (List.mem_cons_of_mem _ hq))

/-- C9: `_s_patch` only writes declared, writable attributes.  Any attribute
whose value changed is declared in the class `_s_jsonapi_attrs` and has write
permission; attribute names outside `_s_jsonapi_attrs` are silently skipped
(the patch returns the unchanged instance and raises no error). -/
theorem C9_patch_frame (parse : ColumnDef → String → String) (reqCtx : Bool)
    (inst : Inst) (attributes : List (String × String))
    (jattrs : List (String × AttrKind))
    (hj : classJsonapiAttrs inst.cls = .ok jattrs) :
    (∀ inst', s_patch parse reqCtx inst attributes = .ok inst' →
       ∀ n, inst'.values n ≠ inst.values n →
         n ∈ jattrs.map Prod.fst ∧ s_check_perm inst.cls n 'w' = .ok true)
    ∧ ((∀ p ∈ attributes, p.1 ∉ jattrs.map Prod.fst) →
       s_patch parse reqCtx inst attributes = .ok inst) := by
  constructor
  · intro inst' h n hn
    unfold s_patch at h
    rw [hj, except_bind_ok] at h
    exact (patchFold_frame parse reqCtx jattrs attributes inst inst' h).2 n hn
  · intro hall
    unfold s_patch
    rw [hj, except_bind_ok]
    exact patchFold_skip parse reqCtx jattrs attributes inst hall

/-- C9 witness: patching the example instance with an undeclared attribute
returns it unchanged. -/
theorem C9_patch_frame_witness :
    classJsonapiAttrs userInst.cls = .ok userJattrs ∧
    (∀ p ∈ [(("bogus" : String), ("1" : String))], p.1 ∉ userJattrs.map Prod.fst) ∧
    s_patch (fun _ v => v) true userInst [("bogus", "1")] = .ok userInst :=
  ⟨rfl, by decide,
   (C9_patch_frame (fun _ v => v) true userInst [("bogus", "1")] userJattrs rfl).2
     (by decide)⟩

theorem alistLookup_eq_none_of_not_mem_keys {l : List (String × α)} {k : String}
    (h : k ∉ l.map Prod.fst) : alistLookup l k = none := by
  unfold alistLookup
  rw [List.find?_eq_none.mpr]
  · rfl
  · intro p hp
    simp only [decide_eq_true_eq]
    intro he
    exact h (he ▸ List.mem_map_of_mem Prod.fst hp)

/-- C10: `_s_post` sanitizes client input before instantiating.  Every
surviving attribute is declared in the class `_s_jsonapi_attrs` (or is the
"id" entry when client-generated ids are allowed); with
`allow_client_generated_ids` False every primary-key column name of the id
type is removed; with it True the supplied id argument is stored under "id";
undeclared names are dropped. -/
theorem C10_post_sanitize (cls : ModelClass) (id : Option String)
    (attributes : List (String × Option String))
    (jattrs : List (String × AttrKind)) (result : List (String × Option String))
    (hj : classJsonapiAttrs cls = .ok jattrs)
    (h : s_post_attributes cls id attributes = .ok result) :
    (∀ p ∈ result, p.1 ∈ jattrs.map Prod.fst ∨
       (cls.allow_client_generated_ids = true ∧ p.1 = "id"))
    ∧ (cls.allow_client_generated_ids = false →
       ∀ p ∈ result, p.1 ∉ cls.id_column_names)
    ∧ (cls.allow_client_generated_ids = true →
       alistLookup result "id" = some id)
    ∧ (∀ n, n ∉ jattrs.map Prod.fst → n ≠ "id" → alistLookup result n = none) := by
  unfold s_post_attributes at h
  rw [hj, except_bind_ok] at h
  cases hallow : cls.allow_client_generated_ids with
  | true =>
    rw [if_pos hallow] at h
    cases h
    have hmem1 : ∀ p ∈ alistSet (attributes.filter
        (fun p => p.1 ∈ jattrs.map Prod.fst)) "id" id,
        p.1 ∈ jattrs.map Prod.fst ∨ ((true : Bool) = true ∧ p.1 = "id") := by
      intro p hp
      rcases mem_alistSet hp with rfl | ⟨hp1, _⟩
      · exact Or.inr ⟨rfl, rfl⟩
      · exact Or.inl (by simpa using (List.mem_filter.mp hp1).2)
    refine ⟨hmem1, ?_, ?_, ?_⟩
    · intro hfalse
      cases hfalse
    · intro _
      exact alistLookup_alistSet_self _ _ _
    · intro n hn hnid
      refine alistLookup_eq_none_of_not_mem_keys ?_
      intro hmem
      rw [List.mem_map] at hmem
      obtain ⟨p, hp, rfl⟩ := hmem
      rcases hmem1 p hp with h1 | ⟨_, h1⟩
      · exact hn h1
      · exact hnid h1
  | false =>
    rw [if_neg (by rw [hallow]; exact Bool.false_ne_true)] at h
    cases h
    have hmem1 : ∀ p ∈ (attributes.filter
        (fun p => p.1 ∈ jattrs.map Prod.fst)).filter
        (fun p => p.1 ∉ cls.id_column_names),
        p.1 ∈ jattrs.map Prod.fst ∨ ((false : Bool) = true ∧ p.1 = "id") := by
      intro p hp
      exact Or.inl (by simpa using (List.mem_filter.mp (List.mem_filter.mp hp).1).2)
    refine ⟨hmem1, ?_, ?_, ?_⟩
    · intro _ p hp
      simpa using (List.mem_filter.mp hp).2
    · intro htrue
      cases htrue
    · intro n hn _
      refine alistLookup_eq_none_of_not_mem_keys ?_
      intro hmem
      rw [List.mem_map] at hmem
      obtain ⟨p, hp, rfl⟩ := hmem
      rcases hmem1 p hp with h1 | ⟨hb, _⟩
      · exact hn h1
      · cases hb

/-- C10 witness: sanitizing a concrete payload for the example class (which
does not allow client-generated ids) keeps only the declared non-primary-key
attributes. -/
theorem C10_post_sanitize_witness :
    classJsonapiAttrs userCls = .ok userJattrs ∧
    s_post_attributes userCls none
      [("name", some "x"), ("id", some "9"), ("junk", some "z")] =
      .ok [("name", some "x")] ∧
    (userCls.allow_client_generated_ids = false →
      ∀ p ∈ [(("name" : String), some ("x" : String))],
        p.1 ∉ userCls.id_column_names) :=
  ⟨rfl, rfl,
   (C10_post_sanitize userCls none
      [("name", some "x"), ("id", some "9"), ("junk", some "z")]
      userJattrs [("name", some "x")] rfl rfl).2.1⟩

/-- C7: routing disables unconfigured methods.  After `Api.add_resource`,
every HTTP method among GET, POST, PATCH, DELETE, PUT whose lowercase name is
not in `get_resource_methods` is replaced on the resource by a handler
returning an empty dictionary with HTTP status 405 Method Not Allowed. -/
theorem C7_method_disabling (res : Resource) (m : String)
    (hm : m ∈ HTTP_METHODS) (hnot : strLower m ∉ get_resource_methods res) :
    disabledHandlers res (strLower m) = .methodNotAllowed ∧
    handlerResponse .methodNotAllowed = some ([], 405) := by
  constructor
  · unfold disabledHandlers
    rw [if_pos ⟨List.mem_map_of_mem strLower hm, hnot⟩]
  · rfl

/-- C7 witness: on the example resource, POST (configured on the flask
resource but absent from the SAFRS object's http_methods) is replaced by the
405 handler. -/
theorem C7_method_disabling_witness :
    ("POST" ∈ HTTP_METHODS) ∧
    (strLower "POST" ∉ get_resource_methods demoResource) ∧
    disabledHandlers demoResource (strLower "POST") = .methodNotAllowed ∧
    handlerResponse .methodNotAllowed = some ([], 405) :=
  ⟨by decide, by decide,
   (C7_method_disabling demoResource "POST" (by decide) (by decide)).1,
   (C7_method_disabling demoResource "POST" (by decide) (by decide)).2⟩

/-- C8: the request-level transaction wrapper `http_method_decorator`.  A
normal handler return commits the session; a safrs error rolls back and
aborts with its status code; a werkzeug NotFound rolls back and aborts with
404.  The claim's remaining case is a code bug: for any other exception
without a `message` attribute (e.g. `ValueError`), the handler's except
branch evaluates `exc.message`, so an AttributeError escapes the wrapper and
neither the rollback nor the 500 JSON abort happens (last conjunct). -/
theorem C8_transaction_wrapper :
    method_wrapper (.ok (42 : Nat)) true = (.success 42, [.commit]) ∧
    method_wrapper (.exc (.safrsError 400 "invalid") : HandlerOutcome Nat) true =
      (.aborted 400 "invalid", [.rollback]) ∧
    method_wrapper (.exc .werkzeugNotFound : HandlerOutcome Nat) true =
      (.aborted 404 "Not Found", [.rollback]) ∧
    method_wrapper (.exc (.otherExc none false "boom") : HandlerOutcome Nat) true =
      (.propagated .attrError, []) :=
  ⟨rfl, rfl, rfl, rfl⟩

/-- C5: jsonapi resource-object encoding.  A successful `_s_jsonapi_encode`
returns a dict with exactly the keys attributes, id, links, type and
relationships; `attributes` is the `to_dict()` result, `links` holds the self
link, and `id` is the jsonapi id — a string built by the id type from the
primary keys (`str(self.id_type.get_id(self))`). -/
theorem C5_jsonapi_encode (inst : Inst) (req : Req) (cfg : Config)
    (d : List (String × JValue)) (h : s_jsonapi_encode inst req cfg = .ok d) :
    (d.map Prod.fst = ["attributes", "id", "links", "type", "relationships"])
    ∧ (∃ attrs, to_dict inst (some req) = .ok attrs ∧
        alistLookup d "attributes" =
          some (.obj (attrs.map (fun p => (p.1, .str p.2)))))
    ∧ alistLookup d "id" = some (.str (jsonapi_id inst))
    ∧ alistLookup d "type" = some (.str inst.cls.name)
    ∧ alistLookup d "links" = some (.obj [("self", .str inst.s_url)]) := by
  unfold s_jsonapi_encode at h
  cases ha : to_dict inst (some req) with
  | error e =>
    rw [ha, except_bind_err] at h
    cases h
  | ok attrs =>
    rw [ha, except_bind_ok] at h
    cases hr : s_get_related inst req cfg with
    | error e =>
      rw [hr, except_bind_err] at h
      cases h
    | ok rels =>
      rw [hr, except_bind_ok] at h
      cases h
      exact ⟨rfl, ⟨attrs, rfl, rfl⟩, rfl, rfl, rfl⟩

/-- C5 witness: the encoding of the example instance, evaluated, fed through
the theorem. -/
theorem C5_jsonapi_encode_witness :
    s_jsonapi_encode userInst {} {} = .ok
      [("attributes", .obj [("name", .str "Alice"),
                            ("email", .str "alice@example.com")]),
       ("id", .str "1"),
       ("links", .obj [("self", .str "http://server/Users/1")]),
       ("type", .str "User"),
       ("relationships", .obj
         [("books", .obj [("links", .obj [("self", .str "http://server/Users/1books")]),
                          ("data", .arr [])]),
          ("employer", .obj [("links", .obj [("self", .str "http://server/Users/1employer")]),
                             ("data", .null)])])] ∧
    ([("attributes", JValue.obj [("name", .str "Alice"),
                                 ("email", .str "alice@example.com")]),
      ("id", JValue.str "1"),
      ("links", JValue.obj [("self", .str "http://server/Users/1")]),
      ("type", JValue.str "User"),
      ("relationships", JValue.obj
        [("books", .obj [("links", .obj [("self", .str "http://server/Users/1books")]),
                         ("data", .arr [])]),
         ("employer", .obj [("links", .obj [("self", .str "http://server/Users/1employer")]),
                            ("data", .null)])])].map Prod.fst
      = ["attributes", "id", "links", "type", "relationships"]) :=
  ⟨rfl, (C5_jsonapi_encode userInst {} {} _ rfl).1⟩

theorem processUrl_subset {grm : List String} {b : Bool} :
    ∀ (pi : List String) (x : String), x ∈ processUrl grm b pi → x ∈ pi := by
  induction grm with
  | nil => intro pi x h; exact h
  | cons m grm ih =>
    intro pi x h
    unfold processUrl at h
    rw [List.foldl_cons] at h
    by_cases hc : m = "post" ∧ b = true
    · rw [if_pos hc] at h
      have := ih _ x h
      exact List.mem_of_mem_filter this
    · rw [if_neg hc] at h
      exact ih _ x h

theorem processUrl_not_mem {grm : List String} {b : Bool} {pi : List String}
    {x : String} (h : x ∉ pi) : x ∉ processUrl grm b pi :=
  fun hmem => h (processUrl_subset pi x hmem)

theorem processUrl_post_free {grm : List String} :
    ∀ (pi : List String), "post" ∈ grm → "post" ∉ processUrl grm true pi := by
  induction grm with
  | nil => intro pi h; cases h
  | cons m grm ih =>
    intro pi hmem
    unfold processUrl
    rw [List.foldl_cons]
    by_cases hm : m = "post"
    · rw [if_pos ⟨hm, rfl⟩]
      have hout : "post" ∉ pi.filter (fun k => k ≠ "post") := by simp
      exact processUrl_not_mem hout
    · rw [if_neg (fun hc => hm hc.1)]
      rcases List.mem_cons.mp hmem with he | hmem2
      · exact absurd he.symm hm
      · exact ih pi hmem2

theorem initialPathItem_subset (res : Resource) (resource_methods : List String)
    (deprecated : Bool) :
    ∀ x ∈ initialPathItem res resource_methods deprecated,
      x ∈ get_resource_methods res := by
  intro x hx
  exact List.mem_of_mem_filter hx

/-- Invariant of the per-url fold: already stored instance paths have no post
operation, and the carried `path_item` keys stay inside
`get_resource_methods`. -/
theorem addResourceFold_inv (res : Resource) (extract : String → String)
    (suffix : String) :
    ∀ (urls : List String) (st out : List (String × List String) × List String),
    urls.foldlM (addResourceUrlStep res extract suffix) st = .ok out →
    (∀ p ∈ st.1, strEndsWith (stripSlashes p.1) (suffix ++ "\x7d") = true →
       "post" ∉ p.2) →
    (∀ x ∈ st.2, x ∈ get_resource_methods res) →
    ∀ p ∈ out.1, strEndsWith (stripSlashes p.1) (suffix ++ "\x7d") = true →
      "post" ∉ p.2 := by
  intro urls
  induction urls with
  | nil =>
    intro st out h h1 _ p hp
    cases h
    exact h1 p hp
  | cons url urls ih =>
    intro st out h h1 h2 p hp hsuf
    rw [List.foldlM_cons] at h
    by_cases hb : strBeginsWith url "/" = true
    · rw [show addResourceUrlStep res extract suffix st url =
          .ok (alistSet st.1 (extract url)
                 (processUrl (get_resource_methods res)
                   (strEndsWith (stripSlashes (extract url)) (suffix ++ "\x7d")) st.2),
               processUrl (get_resource_methods res)
                 (strEndsWith (stripSlashes (extract url)) (suffix ++ "\x7d")) st.2)
          from by unfold addResourceUrlStep; rw [if_neg (by simp [hb])],
          except_bind_ok] at h
      refine ih _ out h ?_ ?_ p hp hsuf
      · intro q hq hqsuf
        rcases mem_alistSet hq with he | ⟨hold, _⟩
        · subst he
          simp only at hqsuf
          rw [hqsuf]
          by_cases hpost : "post" ∈ st.2
          · exact processUrl_post_free st.2 (h2 _ hpost)
          · exact processUrl_not_mem hpost
        · exact h1 q hold hqsuf
      · intro x hx
        exact h2 x (processUrl_subset st.2 x hx)
    · rw [show addResourceUrlStep res extract suffix st url = .error .validationError
          from by unfold addResourceUrlStep; rw [if_pos (by simp [hb])],
          except_bind_err] at h
      cases h

/-- C4: swagger path synthesis never exposes POST on an instance path.  For
every path stored by `Api.add_resource` whose swagger url, stripped of
slashes, ends with the configured object-id suffix (followed by the closing
brace of the path parameter), the stored path item has no "post" operation. -/
theorem C4_no_post_on_instance (res : Resource) (urls : List String)
    (resource_methods : List String) (deprecated : Bool)
    (extract : String → String) (suffix : String)
    (paths : List (String × List String))
    (h : addResourceSwaggerPaths res urls resource_methods deprecated
           extract suffix = .ok paths) :
    ∀ p ∈ paths, strEndsWith (stripSlashes p.1) (suffix ++ "\x7d") = true →
      "post" ∉ p.2 := by
  intro p hp hsuf
  unfold addResourceSwaggerPaths at h
  by_cases h0 : initialPathItem res resource_methods deprecated = []
  · rw [if_pos h0] at h
    cases h
    cases hp
  · rw [if_neg h0] at h
    cases hfold : urls.foldlM (addResourceUrlStep res extract suffix)
        (([], initialPathItem res resource_methods deprecated)) with
    | error e =>
      rw [hfold] at h
      cases h
    | ok out =>
      rw [hfold] at h
      simp only [Except.map] at h
      cases h
      exact addResourceFold_inv res extract suffix urls _ out hfold
        (by intro q hq _; cases hq)
        (initialPathItem_subset res resource_methods deprecated)
        p hp hsuf

/-- C4 witness: a resource exposing GET and POST, registered on a collection
url and an instance url; the instance path loses its post operation. -/
theorem C4_no_post_on_instance_witness :
    addResourceSwaggerPaths
      { methods := ["GET", "POST"], http_methods := ["GET", "POST"] }
      ["/Users", "/Users/<string:UserId>"] ["GET", "POST"] false
      (fun u => if u = "/Users/<string:UserId>" then "/Users/\x7bUserId\x7d" else u)
      "Id" =
      .ok [("/Users", ["get", "post"]), ("/Users/\x7bUserId\x7d", ["get"])] ∧
    (("/Users/\x7bUserId\x7d", ["get"]) ∈
       [(("/Users" : String), ["get", "post"]), ("/Users/\x7bUserId\x7d", ["get"])]) ∧
    strEndsWith (stripSlashes "/Users/\x7bUserId\x7d") ("Id" ++ "\x7d") = true ∧
    "post" ∉ ["get"] :=
  ⟨rfl, by decide, by decide,
   C4_no_post_on_instance
     { methods := ["GET", "POST"], http_methods := ["GET", "POST"] }
     ["/Users", "/Users/<string:UserId>"] ["GET", "POST"] false
     (fun u => if u = "/Users/<string:UserId>" then "/Users/\x7bUserId\x7d" else u)
     "Id" [("/Users", ["get", "post"]), ("/Users/\x7bUserId\x7d", ["get"])] rfl
     ("/Users/\x7bUserId\x7d", ["get"]) (by decide) (by decide)⟩

theorem relStep_eq {cls : ModelClass} {acc : List (String × RelDef)}
    {rel : RelDef} {b : Bool} (hb : s_check_perm cls rel.key 'r' = .ok b) :
    relStep cls acc rel = .ok (if b then alistSet acc rel.key rel else acc) := by
  simp only [relStep, hb, except_bind_ok]
  rfl

theorem relStep_err {cls : ModelClass} {acc : List (String × RelDef)}
    {rel : RelDef} {e : PyErr} (hb : s_check_perm cls rel.key 'r' = .error e) :
    relStep cls acc rel = .error e := by
  simp only [relStep, hb, except_bind_err]

/-- The `_s_relationships` dict pairs each key with the relationship of that
key and has no duplicate keys. -/
theorem relsFold_inv (cls : ModelClass) :
    ∀ (rl : List RelDef) (acc rels : List (String × RelDef)),
    rl.foldlM (relStep cls) acc = .ok rels →
    (∀ p ∈ acc, p.1 = p.2.key) → (acc.map Prod.fst).Nodup →
    (∀ p ∈ rels, p.1 = p.2.key) ∧ (rels.map Prod.fst).Nodup := by
  intro rl
  induction rl with
  | nil =>
    intro acc rels h h1 h2
    cases h
    exact ⟨h1, h2⟩
  | cons rel rl ih =>
    intro acc rels h h1 h2
    rw [List.foldlM_cons] at h
    cases hb : s_check_perm cls rel.key 'r' with
    | error e =>
      rw [relStep_err hb, except_bind_err] at h
      cases h
    | ok b =>
      rw [relStep_eq hb, except_bind_ok] at h
      cases b with
      | false =>
        rw [if_neg (by simp)] at h
        exact ih acc rels h h1 h2
      | true =>
        rw [if_pos rfl] at h
        refine ih _ rels h ?_ (keys_nodup_alistSet h2)
        intro p hp
        rcases mem_alistSet hp with he | ⟨hold, _⟩
        · rw [he]
        · exact h1 p hold

theorem s_relationships_inv {cls : ModelClass} {rels : List (String × RelDef)}
    (h : s_relationships cls = .ok rels) :
    (∀ p ∈ rels, p.1 = p.2.key) ∧ (rels.map Prod.fst).Nodup :=
  relsFold_inv cls cls.relationships [] rels h (by intro p hp; cases hp) (by simp)

/-- Folding dict assignments keyed by fresh, duplicate-free keys appends one
entry per input pair. -/
theorem foldl_alistSet_eq_map {β : Type} (f : String × RelDef → β) :
    ∀ (rels : List (String × RelDef)) (acc : List (String × β)),
    (rels.map Prod.fst).Nodup →
    (∀ k ∈ rels.map Prod.fst, k ∉ acc.map Prod.fst) →
    (∀ p ∈ rels, p.1 = p.2.key) →
    rels.foldl (fun acc2 p => alistSet acc2 p.2.key (f p)) acc =
      acc ++ rels.map (fun p => (p.1, f p)) := by
  intro rels
  induction rels with
  | nil =>
    intro acc _ _ _
    simp
  | cons p rels ih =>
    intro acc hnodup hfresh hkeys
    rw [List.foldl_cons]
    have hpk : p.2.key = p.1 := (hkeys p (List.mem_cons_self _ _)).symm
    rw [hpk, alistSet_fresh_append
      (hfresh p.1 (by rw [List.map_cons]; exact List.mem_cons_self _ _))]
    rw [ih (acc ++ [(p.1, f p)])
      (by rw [List.map_cons] at hnodup; exact hnodup.of_cons)
      ?_ (fun q hq => hkeys q (List.mem_cons_of_mem _ hq))]
    · simp
    · intro k hk
      rw [List.map_append]
      rw [List.mem_append]
      push_neg
      refine ⟨hfresh k (by rw [List.map_cons]; exact List.mem_cons_of_mem _ hk), ?_⟩
      intro hk1
      rw [List.map_cons] at hnodup
      rcases List.mem_singleton.mp (by simpa using hk1) with rfl
      exact (List.nodup_cons.mp hnodup).1 hk

theorem mkRelEntry_links (inst : Inst) (req : Req) (cfg : Config)
    (incl_rels incl_list : List String) (rel : RelDef) :
    (mkRelEntry inst req cfg incl_rels incl_list rel).links_self =
      urljoin inst.s_url rel.key := rfl

theorem mkRelEntry_data_m2o (inst : Inst) (req : Req) (cfg : Config)
    (incl_rels incl_list : List String) (rel : RelDef)
    (hd : rel.direction = .many_to_one) :
    (mkRelEntry inst req cfg incl_rels incl_list rel).data = .noneData ∨
    ∃ x, (mkRelEntry inst req cfg incl_rels incl_list rel).data = .single x := by
  by_cases hin : rel.key ∈ incl_rels ∨ INCLUDE_ALL ∈ incl_list
  · cases ho : inst.relatedOne rel.key with
    | none => left; simp [mkRelEntry, hd, hin, ho]
    | some x => right; exact ⟨x, by simp [mkRelEntry, hd, hin, ho]⟩
  · left
    simp [mkRelEntry, hd, hin]

theorem mkRelEntry_data_many (inst : Inst) (req : Req) (cfg : Config)
    (incl_rels incl_list : List String) (rel : RelDef)
    (hd : rel.direction ≠ .many_to_one) :
    ∃ xs, (mkRelEntry inst req cfg incl_rels incl_list rel).data = .listData xs := by
  have hdir : rel.direction = .one_to_many ∨ rel.direction = .many_to_many := by
    cases h : rel.direction
    · exact Or.inl rfl
    · exact absurd h hd
    · exact Or.inr rfl
  by_cases hin : rel.key ∈ incl_rels ∨ INCLUDE_ALL ∈ incl_list
  · cases hen : cfg.enable_relationships with
    | false =>
      refine ⟨[], ?_⟩
      rcases hdir with h | h <;> simp [mkRelEntry, h, hin, hen]
    | true =>
      by_cases hit : inst.relatedMany rel.key = []
      · refine ⟨[], ?_⟩
        rcases hdir with h | h <;> simp [mkRelEntry, h, hin, hen, hit]
      · refine ⟨inst.relatedMany rel.key, ?_⟩
        rcases hdir with h | h <;> simp [mkRelEntry, h, hin, hen, hit]
  · refine ⟨[], ?_⟩
    rcases hdir with h | h <;> simp [mkRelEntry, h, hin]

/-- C3: include resolution rejects unknown paths.  When the top-level segment
of a requested include path is neither the include-all token nor an exposed
relationship name, `_s_get_related` raises a GenericError with status 400;
otherwise it returns one entry per exposed relationship, each carrying a
links object with a self link and a data member that is a list for to-many
relationships and None or a single included resource for to-one
relationships. -/
theorem C3_get_related (inst : Inst) (req : Req) (cfg : Config)
    (rels : List (String × RelDef))
    (hr : s_relationships inst.cls = .ok rels) :
    ((∃ i ∈ includedRelsOf inst req, i ≠ INCLUDE_ALL ∧ i ∉ rels.map Prod.fst) →
       s_get_related inst req cfg = .error (.genericError 400))
    ∧ (∀ entries, s_get_related inst req cfg = .ok entries →
        (∀ k, k ∈ entries.map Prod.fst ↔ k ∈ rels.map Prod.fst)
        ∧ ∀ p ∈ entries, ∃ rel,
            (p.1, rel) ∈ rels ∧
            p.2.links_self = urljoin inst.s_url p.1 ∧
            (rel.direction = .many_to_one →
              p.2.data = .noneData ∨ ∃ x, p.2.data = .single x) ∧
            (rel.direction ≠ .many_to_one → ∃ xs, p.2.data = .listData xs)) := by
  obtain ⟨hpairs, hnodup⟩ := s_relationships_inv hr
  constructor
  · rintro ⟨i, hi, hne, hnot⟩
    unfold s_get_related
    rw [hr, except_bind_ok, if_pos]
    rw [List.any_eq_true]
    exact ⟨i, hi, by simp [hne, hnot]⟩
  · intro entries h
    unfold s_get_related at h
    rw [hr, except_bind_ok] at h
    cases hany : (includedRelsOf inst req).any
        (fun r => decide (r ≠ INCLUDE_ALL ∧ r ∉ rels.map Prod.fst)) with
    | true =>
      rw [if_pos hany] at h
      cases h
    | false =>
      rw [if_neg (by rw [hany]; exact Bool.false_ne_true)] at h
      cases h
      rw [foldl_alistSet_eq_map
        (fun p => mkRelEntry inst req cfg (includedRelsOf inst req)
          (effectiveIncludedList inst req) p.2)
        rels [] hnodup (by simp) hpairs]
      rw [List.nil_append]
      constructor
      · intro k
        rw [List.map_map]
        constructor
        · intro hk
          rw [List.mem_map] at hk
          obtain ⟨q, hq, he⟩ := hk
          exact he ▸ List.mem_map_of_mem Prod.fst hq
        · intro hk
          rw [List.mem_map] at hk ⊢
          obtain ⟨q, hq, he⟩ := hk
          exact ⟨q, hq, he⟩
      · intro p hp
        rw [List.mem_map] at hp
        obtain ⟨q, hq, he⟩ := hp
        refine ⟨q.2, ?_, ?_, ?_, ?_⟩
        · have : (q.1, q.2) ∈ rels := hq
          rw [← he]
          exact this
        · rw [← he]
          simp only
          rw [mkRelEntry_links]
          rw [hpairs q hq]
        · intro hd
          rw [← he]
          exact mkRelEntry_data_m2o inst req cfg _ _ q.2 hd
        · intro hd
          rw [← he]
          exact mkRelEntry_data_many inst req cfg _ _ q.2 hd

/-- C3 witness: requesting an unknown include path on the example instance
raises the 400 GenericError. -/
theorem C3_get_related_witness :
    s_relationships userCls = .ok userRels ∧
    (∃ i ∈ includedRelsOf userInst { include_arg := some "bogus" },
       i ≠ INCLUDE_ALL ∧ i ∉ userRels.map Prod.fst) ∧
    s_get_related userInst { include_arg := some "bogus" } {} =
      .error (.genericError 400) :=
  ⟨rfl, by decide,
   (C3_get_related userInst { include_arg := some "bogus" } {} userRels rfl).1
     (by decide)⟩

theorem digitChar_isDigit : ∀ n < 10, (Nat.digitChar n).isDigit = true := by
  decide

theorem digitChar_toNat : ∀ n < 10, (Nat.digitChar n).toNat - 48 = n := by
  decide

theorem decDigitsAux_isDigit :
    ∀ (fuel n : Nat) (c : Char), c ∈ decDigitsAux fuel n → c.isDigit = true := by
  intro fuel
  induction fuel with
  | zero => intro n c hc; cases hc
  | succ fuel ih =>
    intro n c hc
    unfold decDigitsAux at hc
    split at hc
    · rcases List.mem_singleton.mp hc with rfl
      exact digitChar_isDigit n (by omega)
    · rcases List.mem_append.mp hc with h | h
      · exact ih _ c h
      · rcases List.mem_singleton.mp h with rfl
        exact digitChar_isDigit _ (Nat.mod_lt _ (by omega))

/-- Decimal valuation of a digit string, inverse to `decDigitsAux`. -/
def digitsVal (l : List Char) : Nat :=
  l.foldl (fun acc c => acc * 10 + (c.toNat - 48)) 0

theorem digitsVal_append_digit (l : List Char) (c : Char) :
    digitsVal (l ++ [c]) = digitsVal l * 10 + (c.toNat - 48) := by
  unfold digitsVal
  rw [List.foldl_append]
  rfl

theorem decDigitsAux_val :
    ∀ (fuel n : Nat), n < fuel → digitsVal (decDigitsAux fuel n) = n := by
  intro fuel
  induction fuel with
  | zero => intro n h; omega
  | succ fuel ih =>
    intro n h
    unfold decDigitsAux
    split
    · rename_i h10
      show digitsVal [Nat.digitChar n] = n
      unfold digitsVal
      simp only [List.foldl_cons, List.foldl_nil]
      rw [Nat.zero_mul, Nat.zero_add]
      exact digitChar_toNat n h10
    · rename_i h10
      rw [digitsVal_append_digit]
      rw [ih (n / 10) (by omega)]
      rw [digitChar_toNat _ (Nat.mod_lt _ (by omega))]
      omega

theorem decDigits_val (n : Nat) : digitsVal (decDigits n) = n :=
  decDigitsAux_val (n + 1) n (Nat.lt_succ_self n)

theorem decRepr_inj {m n : Nat} (h : decRepr m = decRepr n) : m = n := by
  have hd : decDigits m = decDigits n := congrArg String.data h
  have := congrArg digitsVal hd
  rwa [decDigits_val, decDigits_val] at this

theorem decDigits_no_underscore (n : Nat) : '_' ∉ decDigits n := by
  intro h
  have := decDigitsAux_isDigit (n + 1) n '_' h
  simp [Char.isDigit] at this

theorem stripAlnum_no_underscore (s : String) : '_' ∉ (stripAlnum s).data := by
  intro h
  unfold stripAlnum at h
  simp only [List.mem_filter] at h
  have := h.2
  simp [Char.isAlphanum, Char.isAlpha, Char.isUpper, Char.isLower,
    Char.isDigit] at this

/-- Unique decomposition at the first separator: if neither left part
contains the separator, equal concatenations have equal parts. -/
theorem append_sep_inj :
    ∀ (a₁ a₂ b₁ b₂ : List Char), '_' ∉ a₁ → '_' ∉ a₂ →
    a₁ ++ '_' :: b₁ = a₂ ++ '_' :: b₂ → a₁ = a₂ ∧ b₁ = b₂ := by
  intro a₁
  induction a₁ with
  | nil =>
    intro a₂ b₁ b₂ _ h2 h
    cases a₂ with
    | nil => simpa using h
    | cons d ds =>
      rw [List.nil_append, List.cons_append] at h
      injection h with h3 _
      exact absurd (h3 ▸ List.mem_cons_self d ds) (h3 ▸ h2)
  | cons c cs ih =>
    intro a₂ b₁ b₂ h1 h2 h
    cases a₂ with
    | nil =>
      rw [List.nil_append, List.cons_append] at h
      injection h with h3 _
      exact absurd (h3 ▸ List.mem_cons_self c cs) (h3 ▸ h1)
    | cons d ds =>
      rw [List.cons_append, List.cons_append] at h
      injection h with h3 h4
      obtain ⟨he, hb⟩ := ih ds b₁ b₂
        (fun hm => h1 (List.mem_cons_of_mem c hm))
        (fun hm => h2 (List.mem_cons_of_mem d hm)) h4
      exact ⟨by rw [h3, he], hb⟩

/-- Injectivity of the operation-id encoding on underscore-free bases. -/
theorem opId_encode_inj {s₁ s₂ : String} {n₁ n₂ : Nat}
    (h1 : '_' ∉ s₁.data) (h2 : '_' ∉ s₂.data)
    (h : s₁ ++ "_" ++ decRepr n₁ = s₂ ++ "_" ++ decRepr n₂) :
    s₁ = s₂ ∧ n₁ = n₂ := by
  have hd := congrArg String.data h
  simp only [String.data_append] at hd
  rw [List.append_assoc, List.append_assoc] at hd
  rw [List.singleton_append, List.singleton_append] at hd
  obtain ⟨ha, hb⟩ := append_sep_inj s₁.data s₂.data _ _ h1 h2 hd
  refine ⟨String.ext ha, decRepr_inj (String.ext hb)⟩

theorem nextCount_none {st : OpState} {s : String} (h : st s = none) :
    nextCount st s = 0 := by
  unfold nextCount
  rw [h]

theorem nextCount_some {st : OpState} {s : String} {m : Nat}
    (h : st s = some m) : nextCount st s = m + 1 := by
  unfold nextCount
  rw [h]

theorem get_operation_id_fst (st : OpState) (x : String) :
    (get_operation_id st x).1 =
      stripAlnum x ++ "_" ++ decRepr (nextCount st (stripAlnum x)) := by
  rcases hst : st (stripAlnum x) with _ | n
  · simp [get_operation_id, hst, nextCount_none hst]
  · simp [get_operation_id, hst, nextCount_some hst]

theorem get_operation_id_snd_self (st : OpState) (x : String) :
    (get_operation_id st x).2 (stripAlnum x) =
      some (nextCount st (stripAlnum x)) := by
  rcases hst : st (stripAlnum x) with _ | n
  · simp [get_operation_id, hst, nextCount_none hst]
  · simp [get_operation_id, hst, nextCount_some hst]

theorem get_operation_id_snd_other (st : OpState) (x : String) {k : String}
    (hk : k ≠ stripAlnum x) : (get_operation_id st x).2 k = st k := by
  rcases hst : st (stripAlnum x) with _ | n <;>
    simp [get_operation_id, hst, hk]

/-- Counters strictly increase along the trace: an id generated later for the
same stripped summary has a counter above the stored one. -/
theorem opIdTrace_counter_lt (s : String) (hs : '_' ∉ s.data) :
    ∀ (xs : List String) (st : OpState) (k m : Nat),
    (s ++ "_" ++ decRepr k) ∈ opIdTrace st xs → st s = some m → m < k := by
  intro xs
  induction xs with
  | nil => intro st k m h _; cases h
  | cons x xs ih =>
    intro st k m h hm
    unfold opIdTrace at h
    rcases List.mem_cons.mp h with he | hmem
    · rw [get_operation_id_fst st x] at he
      obtain ⟨hseq, hkeq⟩ :=
        opId_encode_inj hs (stripAlnum_no_underscore x) he
      rw [← hseq] at hkeq
      rw [nextCount_some hm] at hkeq
      omega
    · by_cases hsx : s = stripAlnum x
      · have hst2 : (get_operation_id st x).2 s = some (nextCount st s) := by
          rw [hsx]
          exact get_operation_id_snd_self st x
        have hlt := ih _ k (nextCount st s) hmem hst2
        rw [nextCount_some hm] at hlt
        omega
      · have hst2 : (get_operation_id st x).2 s = some m := by
          rw [get_operation_id_snd_other st x hsx]
          exact hm
        exact ih _ k m hmem hst2

/-- C6: generated swagger operation ids are unique.  `get_operation_id`
returns the summary stripped to its alphanumeric characters, an underscore
and a per-summary counter (0 on a summary's first use), and the ids returned
across any sequence of calls are pairwise distinct. -/
theorem C6_operation_ids (summaries : List String) (st : OpState) :
    (opIdTrace st summaries).Nodup
    ∧ (∀ summary, (get_operation_id st summary).1 =
        stripAlnum summary ++ "_" ++ decRepr (nextCount st (stripAlnum summary)))
    ∧ (∀ summary, st (stripAlnum summary) = none →
        (get_operation_id st summary).1 = stripAlnum summary ++ "_" ++ decRepr 0) := by
  refine ⟨?_, fun x => get_operation_id_fst st x, fun x hx => ?_⟩
  · induction summaries generalizing st with
    | nil => exact List.nodup_nil
    | cons x xs ih =>
      unfold opIdTrace
      rw [List.nodup_cons]
      refine ⟨?_, ih _⟩
      intro hmem
      rw [get_operation_id_fst st x] at hmem
      have := opIdTrace_counter_lt (stripAlnum x) (stripAlnum_no_underscore x)
        xs _ _ _ hmem (get_operation_id_snd_self st x)
      omega
  · rw [get_operation_id_fst st x]
    unfold nextCount
    rw [hx]

/-- C6 witness: two identical summaries followed by a different one produce
three distinct operation ids, and a fresh summary gets counter 0. -/
theorem C6_operation_ids_witness :
    ((fun _ => none : OpState) (stripAlnum "Retrieve a User") = none) ∧
    (opIdTrace (fun _ => none)
      ["Retrieve a User", "Retrieve a User", "Create a User"]).Nodup ∧
    (get_operation_id (fun _ => none) "Retrieve a User").1 =
      stripAlnum "Retrieve a User" ++ "_" ++ decRepr 0 :=
  ⟨rfl,
   (C6_operation_ids ["Retrieve a User", "Retrieve a User", "Create a User"]
     (fun _ => none)).1,
   (C6_operation_ids ["Retrieve a User", "Retrieve a User", "Create a User"]
     (fun _ => none)).2.2 "Retrieve a User" rfl⟩

end Safrs
